import Mathlib

/-!
Shallow embedding of the File Integrity Monitoring tool's change-detection
core (modules fim.watch, fim.comparator, fim.scanner, fim.hasher, fim.utils,
fim.cli, fim.storage.json_store) and proofs about it.

Filesystem reads are abstracted by a `FileState` per path, distinguishing the
outcomes that the Python code distinguishes through its exception handling.
Python dicts are modelled as association lists in insertion order; dict.get
is `dget`, `k in d` is `dmem`.
-/

/-- Outcome of inspecting one path on disk, as distinguished by the source:
`path.stat()` can raise FileNotFoundError (`missing`), PermissionError
(`permError`) or another OSError (`osError`); when stat succeeds, `hash_file`
either fails and returns None (`hashError`) or produces a digest (`ok`). -/
inductive FileState where
  | missing : FileState
  | permError : FileState
  | osError : FileState
  | hashError (size : Nat) (mtime : Int) : FileState
  | ok (hash : String) (size : Nat) (mtime : Int) : FileState
deriving DecidableEq, Repr

/-- Metadata record for one file: the dict `{"hash": .., "size": .., "mtime": ..}`
built by `_build_file_meta` / `scan_directory`, and equally the per-file entry
stored in a baseline's `files` mapping (baseline entries always carry the
`"hash"` key, so `entry.get("hash")` coincides with field access). -/
structure FileRecord where
  hash : String
  size : Nat
  mtime : Int
deriving DecidableEq, Repr

/-- Embeds `fim.hasher.hash_file`: SHA-256 hex digest on success, None on any
failure. After a successful stat the possible outcomes are exactly the
`hashError` / `ok` states of the path. -/
def hash_file : FileState → Option String
  | .ok h _ _ => some h
  | _ => none

/-- Embeds `fim.watch._build_file_meta`. Returns (meta, unreadable):
FileNotFoundError from stat gives (None, False); PermissionError or OSError
gives (None, True); a stat success followed by `hash_file` returning None
gives (None, True); otherwise the metadata dict with unreadable False. -/
def build_file_meta : FileState → Option FileRecord × Bool
  | .missing => (none, false)
  | .permError => (none, true)
  | .osError => (none, true)
  | .hashError _ _ => (none, true)
  | .ok h s m => (some ⟨h, s, m⟩, false)

/-- Embeds `fim.watch.CompareResult`. change_type is "created" / "modified" /
"deleted" or None. -/
structure CompareResult where
  change_type : Option String
  meta : Option FileRecord
  unreadable : Bool
deriving DecidableEq, Repr

/-- Embeds `fim.watch.compare_file`. The filesystem is passed explicitly as
`fs`; `abs_path` is the path handed to `_build_file_meta`. The source also
receives `rel_path`, which its body never uses, so it is omitted here.
`baseline_entry.get("hash")` is field access on the optional entry. -/
def compare_file (fs : String → FileState) (abs_path : String)
    (baseline_entry : Option FileRecord) : CompareResult :=
  let mb := build_file_meta (fs abs_path)
  match mb.1, mb.2 with
  | none, false =>
    match baseline_entry with
    | some _ => ⟨some ("deleted"), none, false⟩
    | none => ⟨none, none, false⟩
  | none, true => ⟨none, none, true⟩
  | some m, _ =>
    match baseline_entry with
    | none => ⟨some ("created"), some m, false⟩
    | some b =>
      if b.hash ≠ m.hash then ⟨some ("modified"), some m, false⟩
      else ⟨none, some m, false⟩

/-- Python dict lookup `d.get(k)`: value of the first binding of the key,
None when the key is absent. Dicts are association lists in insertion order. -/
def dget {α : Type} : List (String × α) → String → Option α
  | [], _ => none
  | (k2, v) :: rest, k => if k2 = k then some v else dget rest k

/-- Keys of a dict in iteration (insertion) order: `d.keys()`. -/
def dkeys {α : Type} (d : List (String × α)) : List String := d.map Prod.fst

/-- Python membership test `k in d`. -/
def dmem {α : Type} (d : List (String × α)) (k : String) : Bool := (dget d k).isSome

/-- Embeds the result dict of `fim.comparator.compare_baseline`. -/
structure ChangeSet where
  created : List String
  deleted : List String
  modified : List String
deriving DecidableEq, Repr

/-- First loop of `compare_baseline`: walk `old_files` in iteration order,
appending each path to `deleted` when absent from `new_files` and to
`modified` when present with a different `"hash"`. Returns
(deleted, modified), each in the order the loop appends. -/
def classify_old (new_files : List (String × FileRecord)) :
    List (String × FileRecord) → List String × List String
  | [] => ([], [])
  | (path, old_meta) :: rest =>
    let dm := classify_old new_files rest
    match dget new_files path with
    | none => (path :: dm.1, dm.2)
    | some new_meta =>
      if old_meta.hash ≠ new_meta.hash then (dm.1, path :: dm.2) else dm

/-- Embeds `fim.comparator.compare_baseline`: one pass over `old_files` for
deleted/modified, one pass over `new_files.keys()` for created. -/
def compare_baseline (old_files new_files : List (String × FileRecord)) :
    ChangeSet :=
  let dm := classify_old new_files old_files
  { created := (new_files.filter (fun p => !(dmem old_files p.1))).map Prod.fst
    deleted := dm.1
    modified := dm.2 }

/-- Models Python `str.lower()` character by character (the event kinds fed
through it are plain ASCII words). -/
def py_lower (s : String) : String := String.mk (s.data.map Char.toLower)

/-- Models Python `str.strip()`: drop whitespace from both ends. -/
def py_strip (s : String) : String :=
  String.mk (((s.data.dropWhile Char.isWhitespace).reverse.dropWhile
    Char.isWhitespace).reverse)

/-- Embeds `fim.watch.NormalizedEvent`. Paths are kept as strings. -/
structure NormalizedEvent where
  kind : String
  abs_path : String
deriving DecidableEq, Repr

/-- Embeds `fim.watch.normalize_event`: `kind.lower().strip()` selects the
case; moved splits into deleted(src) then created(dest), moved without a
destination gives deleted(src) only, the three plain kinds pass through, and
any other kind yields the empty list. -/
def normalize_event (kind : String) (src_path : String)
    (dest_path : Option String) : List NormalizedEvent :=
  let k := py_strip (py_lower kind)
  if k = "moved" then
    match dest_path with
    | none => [⟨"deleted", src_path⟩]
    | some d => [⟨"deleted", src_path⟩, ⟨"created", d⟩]
  else if k = "created" ∨ k = "modified" ∨ k = "deleted" then
    [⟨k, src_path⟩]
  else []

/-- Lexicographic ≤ on character lists, the byte-wise string order Python's
`sorted` would use on the ASCII paths involved. -/
def str_lex_leb : List Char → List Char → Bool
  | [], _ => true
  | _ :: _, [] => false
  | a :: as, b :: bs =>
    if a < b then true
    else if a = b then str_lex_leb as bs
    else false

/-- Adjacent-pairs check that a list of paths is sorted lexicographically. -/
def sorted_by_path : List String → Bool
  | [] => true
  | [_] => true
  | a :: b :: rest => str_lex_leb a.data b.data && sorted_by_path (b :: rest)

/-- Pointwise update of a function-valued map, modelling `d[k] = v` on the
per-path dicts of `WatchHandler`. -/
def fupdate {α : Type} (f : String → α) (k : String) (v : α) : String → α :=
  fun x => if x = k then v else f x

/-- Per-path mutable state of `fim.watch.WatchHandler` guarded by its lock:
`_pending` (rel_path -> last absolute path to evaluate), `_timers`
(rel_path -> identity of the currently registered timer, modelled by a
generation number, None when no timer is registered), and `_retry_once`
(rel_path -> whether a retry was already consumed; `dict.get(rel, False)` /
`dict.pop` make an absent key read as false). `next_timer_id` supplies fresh
timer identities. -/
structure WatchState where
  pending : String → Option String
  timers : String → Option Nat
  retry_once : String → Bool
  next_timer_id : Nat

/-- Embeds `WatchHandler._schedule_evaluation`: record the latest absolute
path for the key, cancel any previously registered timer for the key
(replacing its identity cancels it: a timer callback only runs while it is
still the registered timer), and register a fresh timer. -/
def schedule_evaluation (s : WatchState) (rel abs : String) : WatchState :=
  { pending := fupdate s.pending rel (some abs)
    timers := fupdate s.timers rel (some s.next_timer_id)
    retry_once := s.retry_once
    next_timer_id := s.next_timer_id + 1 }

/-- Result of one timer callback: the state afterwards, the emitted change
events as (change_type, rel_path) pairs, and the `compare_file` (Decision
Engine) invocations performed, as (rel_path, abs_path) pairs. -/
structure FlushResult where
  state : WatchState
  emitted : List (String × String)
  invocations : List (String × String)

/-- Embeds `WatchHandler._flush_one`: read the latest pending absolute path
and drop the timer entry; if a pending path exists, evaluate it against the
baseline with `compare_file`. On an unreadable result, reschedule once if the
retry flag is clear (marking it consumed), else accept silently. On a
readable result, clear the retry flag (`_retry_once.pop`) and emit the
change_type when there is one. -/
def flush_one (fs : String → FileState) (baseline : String → Option FileRecord)
    (s : WatchState) (rel : String) : FlushResult :=
  let s1 : WatchState := { s with timers := fupdate s.timers rel none }
  match s.pending rel with
  | none => ⟨s1, [], []⟩
  | some abs =>
    let result := compare_file fs abs (baseline rel)
    if result.unreadable then
      if s1.retry_once rel = false then
        ⟨schedule_evaluation { s1 with retry_once := fupdate s1.retry_once rel true } rel abs,
          [], [(rel, abs)]⟩
      else ⟨s1, [], [(rel, abs)]⟩
    else
      let s2 : WatchState := { s1 with retry_once := fupdate s1.retry_once rel false }
      match result.change_type with
      | some ct => ⟨s2, [(ct, rel)], [(rel, abs)]⟩
      | none => ⟨s2, [], [(rel, abs)]⟩

/-- A timer firing: the callback body (`_flush_one`) runs only when the firing
timer is still the registered one for its key; a cancelled (superseded) timer
never runs its callback. -/
def fire_timer (fs : String → FileState) (baseline : String → Option FileRecord)
    (s : WatchState) (rel : String) (tid : Nat) : FlushResult :=
  if s.timers rel = some tid then flush_one fs baseline s rel
  else ⟨s, [], []⟩

/-- A burst of normalized events for one key: each event calls
`_schedule_evaluation` with the absolute path it observed, in order. -/
def run_events (s : WatchState) (rel : String) : List String → WatchState
  | [] => s
  | a :: rest => run_events (schedule_evaluation s rel a) rel rest

/-- Embeds `fim.scanner._matches_exclude_patterns` loop body for one pattern:
empty patterns are skipped, a pattern opening with the negation character
un-excludes on match, any other pattern excludes on match. `fnm` stands for
the library `fnmatch` predicate (rel_path first, pattern second). -/
def matches_exclude_step (fnm : String → String → Bool) (rel : String)
    (excluded : Bool) (pat : String) : Bool :=
  if pat = "" then excluded
  else if pat.front = '!' then
    if fnm rel (pat.drop 1) then false else excluded
  else if fnm rel pat then true else excluded

/-- Embeds `fim.scanner._matches_exclude_patterns`: fold the patterns in
order starting from not-excluded. -/
def matches_exclude_patterns (fnm : String → String → Bool) (rel : String)
    (patterns : List String) : Bool :=
  if patterns = [] then false
  else patterns.foldl (matches_exclude_step fnm rel) false

/-- Embeds `fim.scanner.scan_directory`. The walk is the sequence of
(relative path, on-disk state) pairs that `os.walk` delivers (the code's
`relative_to` guard is upstream of this and paths arrive already relative).
Excluded paths are skipped; FileNotFoundError and PermissionError from stat
are caught and the file skipped; a None from `hash_file` skips the file; any
other OSError from stat is not caught, aborting the scan (modelled as None).
Each surviving file contributes its metadata record in walk order. -/
def scan_directory (fnm : String → String → Bool)
    (exclude : List String) :
    List (String × FileState) → Option (List (String × FileRecord))
  | [] => some []
  | (rel, st) :: rest =>
    if matches_exclude_patterns fnm rel exclude then
      scan_directory fnm exclude rest
    else
      match st with
      | .missing => scan_directory fnm exclude rest
      | .permError => scan_directory fnm exclude rest
      | .osError => none
      | .hashError _ _ => scan_directory fnm exclude rest
      | .ok h sz mt =>
        (scan_directory fnm exclude rest).map (fun r => (rel, ⟨h, sz, mt⟩) :: r)

/-- File contents relevant to a baseline update, as abstract serialized
streams (lists of written chunks): the active baseline file and the
timestamped backup (None while no backup exists). -/
structure UpdateFs where
  baseline : List String
  backup : Option (List String)
deriving DecidableEq, Repr

/-- Outcome of the replacement phase of `fim.cli.update_command`. -/
inductive UpdateOutcome where
  | abortedBackupFailure (fs : UpdateFs)
  | completed (fs : UpdateFs)
  | crashedDuringSave (fs : UpdateFs)
deriving DecidableEq, Repr

/-- Embeds `fim.storage.json_store.save_json` interrupted after `k` chunks:
the target is opened with mode "w", which truncates it immediately, and
`json.dump` then writes the serialization incrementally, so a failure mid
write leaves exactly the chunks written so far on disk. -/
def save_json_interrupted (data : List String) (k : Nat) : List String :=
  data.take k

/-- Embeds the replacement phase of `fim.cli.update_command` (after the
confirmation prompt): `shutil.copy2` archives the active baseline to the
timestamped backup; if that raises, the update is aborted before any write to
the active baseline. Otherwise `save_json` rewrites the active baseline in
place; `crash_after = some k` models `save_json` failing after writing `k`
chunks of the new serialization, `none` models a completed save. -/
def update_replace (old_content new_content : List String)
    (backup_ok : Bool) (crash_after : Option Nat) : UpdateOutcome :=
  if backup_ok = false then .abortedBackupFailure ⟨old_content, none⟩
  else
    match crash_after with
    | none => .completed ⟨new_content, some old_content⟩
    | some k => .crashedDuringSave ⟨save_json_interrupted new_content k, some old_content⟩

/-- Embeds `fim.utils.is_path_within` on resolved, case-normalized absolute
paths represented by their component lists:
`os.path.commonpath([child, parent]) == parent` holds exactly when the parent
components lead the child components. -/
def is_path_within : List String → List String → Bool
  | _, [] => true
  | [], _ :: _ => false
  | c :: cs, p :: ps => c = p && is_path_within cs ps

/-- Embeds `target.name or "watch"` from `fim.utils.default_watch_log_path`:
the last path component, or "watch" when there is none. -/
def target_name (target : List String) : String :=
  match target.getLast? with
  | some n => n
  | none => "watch"

/-- Embeds `fim.utils.default_watch_log_path`: the file
changes-{target.name}.jsonl under {state_root}/fim/logs, where state_root is
the per-user state directory chosen from the environment (LOCALAPPDATA /
XDG_STATE_HOME / their fallbacks). -/
def default_watch_log_path (state_root target : List String) : List String :=
  state_root ++ ["fim", "logs", "changes-" ++ target_name target ++ ".jsonl"]

/-- Embeds the log-path selection of `fim.cli.watch_command`: an explicitly
supplied (already resolved) log path is refused — None, the watcher is not
started — when it lies within the watched target; otherwise it is used. With
no explicit log path, the default under the per-user state directory is used
with no containment check. -/
def watch_command_log (target : List String) (log_arg : Option (List String))
    (state_root : List String) : Option (List String) :=
  match log_arg with
  | some lp => if is_path_within lp target then none else some lp
  | none => some (default_watch_log_path state_root target)

/-! Helper lemmas about the dict model. -/

theorem dget_mem {α : Type} {d : List (String × α)} {k : String} {v : α}
    (h : dget d k = some v) : (k, v) ∈ d := by
  induction d with
  | nil => simp [dget] at h
  | cons hd tl ih =>
    obtain ⟨k2, w⟩ := hd
    by_cases hk : k2 = k
    · subst hk
      simp [dget] at h
      simp [h]
    · simp only [dget, if_neg hk] at h
      exact List.mem_cons_of_mem _ (ih h)

theorem mem_dkeys {α : Type} {d : List (String × α)} {k : String} {v : α}
    (h : (k, v) ∈ d) : k ∈ dkeys d := by
  simp only [dkeys, List.mem_map]
  exact ⟨(k, v), h, rfl⟩

theorem mem_dget {α : Type} {d : List (String × α)} {k : String} {v : α}
    (nd : (dkeys d).Nodup) (h : (k, v) ∈ d) : dget d k = some v := by
  induction d with
  | nil => simp at h
  | cons hd tl ih =>
    obtain ⟨k2, w⟩ := hd
    have nd' := nd
    simp only [dkeys, List.map_cons, List.nodup_cons] at nd'
    rcases List.mem_cons.mp h with heq | hmem
    · rw [Prod.mk.injEq] at heq
      obtain ⟨h1, h2⟩ := heq
      subst h1; subst h2
      simp [dget]
    · by_cases hk : k2 = k
      · subst hk
        exact absurd (mem_dkeys hmem) nd'.1
      · simp only [dget, if_neg hk]
        exact ih nd'.2 hmem

theorem dkeys_nodup_unique {α : Type} {d : List (String × α)}
    (nd : (dkeys d).Nodup) {k : String} {a b : α}
    (ha : (k, a) ∈ d) (hb : (k, b) ∈ d) : a = b := by
  have h1 := mem_dget nd ha
  have h2 := mem_dget nd hb
  rw [h1] at h2
  exact Option.some.inj h2

theorem dget_isSome_of_mem {α : Type} {d : List (String × α)} {k : String}
    {v : α} (h : (k, v) ∈ d) : (dget d k).isSome = true := by
  induction d with
  | nil => simp at h
  | cons hd tl ih =>
    obtain ⟨k2, w⟩ := hd
    by_cases hk : k2 = k
    · simp [dget, hk]
    · rcases List.mem_cons.mp h with heq | hmem
      · rw [Prod.mk.injEq] at heq
        exact absurd heq.1.symm hk
      · simp only [dget, if_neg hk]
        exact ih hmem

theorem dmem_iff_exists {α : Type} {d : List (String × α)} {k : String} :
    dmem d k = true ↔ ∃ v, (k, v) ∈ d := by
  constructor
  · intro h
    rw [dmem, Option.isSome_iff_exists] at h
    obtain ⟨v, hv⟩ := h
    exact ⟨v, dget_mem hv⟩
  · rintro ⟨v, hv⟩
    exact dget_isSome_of_mem hv

theorem dmem_false_iff {α : Type} {d : List (String × α)} {k : String} :
    dmem d k = false ↔ dget d k = none := by
  rw [dmem]
  cases dget d k <;> simp

/-! Helper lemmas about compare_baseline. -/

theorem classify_old_fst (nf : List (String × FileRecord)) :
    ∀ of : List (String × FileRecord),
    (classify_old nf of).1
      = (of.filter (fun p => (dget nf p.1).isNone)).map Prod.fst
  | [] => rfl
  | (path, om) :: rest => by
    have ih := classify_old_fst nf rest
    simp only [classify_old]
    cases hg : dget nf path with
    | none => simp [List.filter_cons, hg, ih]
    | some nm =>
      by_cases hh : om.hash ≠ nm.hash
      · simp [List.filter_cons, hg, ih, if_pos hh]
      · simp [List.filter_cons, hg, ih, if_neg hh]

theorem classify_old_snd (nf : List (String × FileRecord)) :
    ∀ of : List (String × FileRecord),
    (classify_old nf of).2
      = (of.filter (fun p =>
          match dget nf p.1 with
          | some n => decide (p.2.hash ≠ n.hash)
          | none => false)).map Prod.fst
  | [] => rfl
  | (path, om) :: rest => by
    have ih := classify_old_snd nf rest
    simp only [classify_old]
    cases hg : dget nf path with
    | none => simp [List.filter_cons, hg, ih]
    | some nm =>
      by_cases hh : om.hash ≠ nm.hash
      · simp [List.filter_cons, hg, ih, if_pos hh, hh]
      · simp [List.filter_cons, hg, ih, if_neg hh, hh]

theorem mem_deleted_iff {old new : List (String × FileRecord)} {p : String} :
    p ∈ (compare_baseline old new).deleted
      ↔ ∃ r, (p, r) ∈ old ∧ dget new p = none := by
  simp only [compare_baseline]
  rw [classify_old_fst]
  simp only [List.mem_map, List.mem_filter, Option.isNone_iff_eq_none]
  constructor
  · rintro ⟨⟨q, r⟩, ⟨hmem, hnone⟩, rfl⟩
    exact ⟨r, hmem, hnone⟩
  · rintro ⟨r, hmem, hnone⟩
    exact ⟨(p, r), ⟨hmem, hnone⟩, rfl⟩

theorem mem_modified_iff {old new : List (String × FileRecord)} {p : String} :
    p ∈ (compare_baseline old new).modified
      ↔ ∃ r n, (p, r) ∈ old ∧ dget new p = some n ∧ r.hash ≠ n.hash := by
  simp only [compare_baseline]
  rw [classify_old_snd]
  simp only [List.mem_map, List.mem_filter]
  constructor
  · rintro ⟨⟨q, r⟩, ⟨hmem, hpred⟩, rfl⟩
    cases hg : dget new q with
    | none => rw [hg] at hpred; simp at hpred
    | some n =>
      rw [hg] at hpred
      simp only [decide_eq_true_eq] at hpred
      exact ⟨r, n, hmem, rfl, hpred⟩
  · rintro ⟨r, n, hmem, hg, hne⟩
    refine ⟨(p, r), ⟨hmem, ?_⟩, rfl⟩
    rw [hg]
    simpa using hne

theorem mem_created_iff {old new : List (String × FileRecord)} {p : String} :
    p ∈ (compare_baseline old new).created
      ↔ ∃ r, (p, r) ∈ new ∧ dget old p = none := by
  simp only [compare_baseline]
  simp only [List.mem_map, List.mem_filter, Bool.not_eq_true', dmem_false_iff]
  constructor
  · rintro ⟨⟨q, r⟩, ⟨hmem, hnone⟩, rfl⟩
    exact ⟨r, hmem, hnone⟩
  · rintro ⟨r, hmem, hnone⟩
    exact ⟨(p, r), ⟨hmem, hnone⟩, rfl⟩

/-! The claims. -/

/-- Claim C1: for every path and optional baseline entry, compare_file returns
verdict deleted when the file is missing and a baseline entry is present;
verdict none when the file is missing and no entry is present; verdict none
with unreadable true (never modified) when the file exists but cannot be read
or hashed; verdict created when the file is readable and no entry is present;
verdict modified when the digest differs from the entry's digest; and verdict
none with unreadable false when the digests are equal. -/
theorem compare_file_cases (fs : String → FileState) (p : String) :
    (∀ e, fs p = .missing → e ≠ none →
      compare_file fs p e = ⟨some ("deleted"), none, false⟩)
  ∧ (fs p = .missing → compare_file fs p none = ⟨none, none, false⟩)
  ∧ (∀ e, (fs p = .permError ∨ fs p = .osError ∨
        ∃ sz mt, fs p = .hashError sz mt) →
      compare_file fs p e = ⟨none, none, true⟩)
  ∧ (∀ h sz mt, fs p = .ok h sz mt →
      compare_file fs p none = ⟨some ("created"), some ⟨h, sz, mt⟩, false⟩)
  ∧ (∀ h sz mt b, fs p = .ok h sz mt → b.hash ≠ h →
      compare_file fs p (some b)
        = ⟨some ("modified"), some ⟨h, sz, mt⟩, false⟩)
  ∧ (∀ h sz mt b, fs p = .ok h sz mt → b.hash = h →
      compare_file fs p (some b) = ⟨none, some ⟨h, sz, mt⟩, false⟩) := by
  refine ⟨?_, ?_, ?_, ?_, ?_, ?_⟩
  · intro e hfs hne
    cases e with
    | none => exact absurd rfl hne
    | some b => simp [compare_file, build_file_meta, hfs]
  · intro hfs
    simp [compare_file, build_file_meta, hfs]
  · intro e hu
    rcases hu with h | h | ⟨sz, mt, h⟩ <;>
      simp [compare_file, build_file_meta, h]
  · intro h sz mt hfs
    simp [compare_file, build_file_meta, hfs]
  · intro h sz mt b hfs hb
    simp [compare_file, build_file_meta, hfs, hb]
  · intro h sz mt b hfs hb
    simp [compare_file, build_file_meta, hfs, hb]

/-- Witness for C1 at concrete inputs: a missing path with a baseline entry is
deleted, an unreadable path gives no verdict with unreadable set, and a
readable path with a differing digest is modified. -/
theorem compare_file_cases_witness :
    compare_file (fun _ => FileState.missing) ("a.txt") (some ⟨"h1", 1, 10⟩)
      = ⟨some ("deleted"), none, false⟩
  ∧ compare_file (fun _ => FileState.permError) ("a.txt") (some ⟨"h1", 1, 10⟩)
      = ⟨none, none, true⟩
  ∧ compare_file (fun _ => FileState.ok ("h2") 2 20) ("a.txt")
        (some ⟨"h1", 1, 10⟩)
      = ⟨some ("modified"), some ⟨"h2", 2, 20⟩, false⟩ :=
  ⟨(compare_file_cases (fun _ => FileState.missing) ("a.txt")).1 _ rfl
      (by simp),
   (compare_file_cases (fun _ => FileState.permError) ("a.txt")).2.2.1 _
      (Or.inl rfl),
   (compare_file_cases (fun _ => FileState.ok ("h2") 2 20) ("a.txt")).2.2.2.2.1
      ("h2") 2 20 ⟨"h1", 1, 10⟩ rfl (by decide)⟩

/-- Claim C6: compare_file is idempotent — with a fixed filesystem snapshot,
baseline entry and path, any number of repeated calls all return the same
CompareResult (verdict, metadata and unreadable flag). -/
theorem compare_file_repeat_idempotent (fs : String → FileState) (p : String)
    (e : Option FileRecord) (n : Nat) :
    (List.replicate n (fs, p, e)).map (fun c => compare_file c.1 c.2.1 c.2.2)
      = List.replicate n (compare_file fs p e) := by
  simp

/-- Claim C2: compare_baseline returns exactly deleted = old minus new,
created = new minus old, modified = common paths with differing hash (size
and mtime play no role), and the three collections are pairwise disjoint. -/
theorem compare_baseline_partition (old new : List (String × FileRecord))
    (hold : (dkeys old).Nodup) (_hnew : (dkeys new).Nodup) :
    (∀ p, p ∈ (compare_baseline old new).deleted
        ↔ (dmem old p = true ∧ dmem new p = false))
  ∧ (∀ p, p ∈ (compare_baseline old new).created
        ↔ (dmem new p = true ∧ dmem old p = false))
  ∧ (∀ p, p ∈ (compare_baseline old new).modified
        ↔ ∃ a b, dget old p = some a ∧ dget new p = some b ∧ a.hash ≠ b.hash)
  ∧ (∀ p, ¬ (p ∈ (compare_baseline old new).deleted
        ∧ p ∈ (compare_baseline old new).created))
  ∧ (∀ p, ¬ (p ∈ (compare_baseline old new).deleted
        ∧ p ∈ (compare_baseline old new).modified))
  ∧ (∀ p, ¬ (p ∈ (compare_baseline old new).created
        ∧ p ∈ (compare_baseline old new).modified)) := by
  refine ⟨?_, ?_, ?_, ?_, ?_, ?_⟩
  · intro p
    rw [mem_deleted_iff]
    constructor
    · rintro ⟨r, hm, hn⟩
      exact ⟨dmem_iff_exists.mpr ⟨r, hm⟩, dmem_false_iff.mpr hn⟩
    · rintro ⟨h1, h2⟩
      obtain ⟨r, hr⟩ := dmem_iff_exists.mp h1
      exact ⟨r, hr, dmem_false_iff.mp h2⟩
  · intro p
    rw [mem_created_iff]
    constructor
    · rintro ⟨r, hm, hn⟩
      exact ⟨dmem_iff_exists.mpr ⟨r, hm⟩, dmem_false_iff.mpr hn⟩
    · rintro ⟨h1, h2⟩
      obtain ⟨r, hr⟩ := dmem_iff_exists.mp h1
      exact ⟨r, hr, dmem_false_iff.mp h2⟩
  · intro p
    rw [mem_modified_iff]
    constructor
    · rintro ⟨r, n, hm, hg, hne⟩
      exact ⟨r, n, mem_dget hold hm, hg, hne⟩
    · rintro ⟨a, b, hga, hgb, hne⟩
      exact ⟨a, b, dget_mem hga, hgb, hne⟩
  · rintro p ⟨hd, hc⟩
    obtain ⟨r, _, hn⟩ := mem_deleted_iff.mp hd
    obtain ⟨r2, hm2, _⟩ := mem_created_iff.mp hc
    have := dget_isSome_of_mem hm2
    rw [hn] at this
    simp at this
  · rintro p ⟨hd, hm⟩
    obtain ⟨r, _, hn⟩ := mem_deleted_iff.mp hd
    obtain ⟨r2, n2, _, hg2, _⟩ := mem_modified_iff.mp hm
    rw [hn] at hg2
    simp at hg2
  · rintro p ⟨hc, hm⟩
    obtain ⟨r, _, hn⟩ := mem_created_iff.mp hc
    obtain ⟨r2, n2, hm2, _, _⟩ := mem_modified_iff.mp hm
    have := dget_isSome_of_mem hm2
    rw [hn] at this
    simp at this

/-- Witness for C2 on the spec's end-to-end example: with the baseline holding
a.txt and b.txt and the live scan holding a.txt (same hash), b.txt (new hash)
and c.txt, c.txt is created and b.txt is modified. -/
theorem compare_baseline_partition_witness :
    (("c.txt" : String) ∈ (compare_baseline
        [("a.txt", ⟨"h1", 1, 10⟩), ("b.txt", ⟨"h2", 2, 20⟩)]
        [("a.txt", ⟨"h1", 1, 10⟩), ("b.txt", ⟨"h2x", 2, 21⟩),
          ("c.txt", ⟨"h3", 3, 30⟩)]).created)
  ∧ (("b.txt" : String) ∈ (compare_baseline
        [("a.txt", ⟨"h1", 1, 10⟩), ("b.txt", ⟨"h2", 2, 20⟩)]
        [("a.txt", ⟨"h1", 1, 10⟩), ("b.txt", ⟨"h2x", 2, 21⟩),
          ("c.txt", ⟨"h3", 3, 30⟩)]).modified) :=
  ⟨((compare_baseline_partition
      [("a.txt", ⟨"h1", 1, 10⟩), ("b.txt", ⟨"h2", 2, 20⟩)]
      [("a.txt", ⟨"h1", 1, 10⟩), ("b.txt", ⟨"h2x", 2, 21⟩),
        ("c.txt", ⟨"h3", 3, 30⟩)]
      (by decide) (by decide)).2.1 ("c.txt")).mpr ⟨by decide, by decide⟩,
   ((compare_baseline_partition
      [("a.txt", ⟨"h1", 1, 10⟩), ("b.txt", ⟨"h2", 2, 20⟩)]
      [("a.txt", ⟨"h1", 1, 10⟩), ("b.txt", ⟨"h2x", 2, 21⟩),
        ("c.txt", ⟨"h3", 3, 30⟩)]
      (by decide) (by decide)).2.2.1 ("b.txt")).mpr
      ⟨⟨"h2", 2, 20⟩, ⟨"h2x", 2, 21⟩, by decide, by decide, by decide⟩⟩

/-- Claim C5: normalize_event maps moved-with-destination to exactly
[deleted(source), created(destination)] in that order, moved without a
destination to [deleted(source)], passes created/modified/deleted through as
a single event, and maps any other kind to the empty sequence. -/
theorem normalize_event_cases (src d : String) :
    (∀ kind, py_strip (py_lower kind) = "moved" →
      normalize_event kind src (some d)
        = [⟨"deleted", src⟩, ⟨"created", d⟩])
  ∧ (∀ kind, py_strip (py_lower kind) = "moved" →
      normalize_event kind src none = [⟨"deleted", src⟩])
  ∧ (∀ k dp, (k = "created" ∨ k = "modified" ∨ k = "deleted") →
      normalize_event k src dp = [⟨k, src⟩])
  ∧ (∀ kind dp, py_strip (py_lower kind) ≠ "moved" →
      py_strip (py_lower kind) ≠ "created" →
      py_strip (py_lower kind) ≠ "modified" →
      py_strip (py_lower kind) ≠ "deleted" →
      normalize_event kind src dp = []) := by
  refine ⟨?_, ?_, ?_, ?_⟩
  · intro kind hk
    simp [normalize_event, hk]
  · intro kind hk
    simp [normalize_event, hk]
  · intro k dp hk
    rcases hk with rfl | rfl | rfl <;> rfl
  · intro kind dp h1 h2 h3 h4
    simp [normalize_event, h1, h2, h3, h4]

/-- Witness for C5: a noisy "MOVED " kind with a destination splits into
delete-then-create, and an unknown kind is dropped without error. -/
theorem normalize_event_cases_witness :
    normalize_event ("MOVED ") ("a.txt") (some ("b.txt"))
      = [⟨"deleted", "a.txt"⟩, ⟨"created", "b.txt"⟩]
  ∧ normalize_event ("closed") ("a.txt") none = [] :=
  ⟨(normalize_event_cases ("a.txt") ("b.txt")).1 ("MOVED ") (by decide),
   (normalize_event_cases ("a.txt") ("b.txt")).2.2.2 ("closed") none
      (by decide) (by decide) (by decide) (by decide)⟩

/-- Counterexample to claim C7: compare_baseline does not sort its result
collections lexicographically — an input mapping whose insertion order is not
sorted is reported in that same unsorted order. -/
theorem compare_baseline_created_not_sorted :
    (compare_baseline []
        [("b.txt", ⟨"h1", 1, 10⟩), ("a.txt", ⟨"h2", 2, 20⟩)]).created
      = ["b.txt", "a.txt"]
  ∧ sorted_by_path (compare_baseline []
        [("b.txt", ⟨"h1", 1, 10⟩), ("a.txt", ⟨"h2", 2, 20⟩)]).created
      = false := by
  exact ⟨rfl, rfl⟩

/-- Claim C7 as amended: the three result collections of compare_baseline are
reported in the iteration (insertion) order of the input mappings — created
follows new's order, deleted and modified follow old's order — so the order
is deterministic given the input mappings, but it is not sorted
lexicographically. -/
theorem compare_baseline_iteration_order
    (old new : List (String × FileRecord)) :
    (compare_baseline old new).created
      = (new.filter (fun p => !(dmem old p.1))).map Prod.fst
  ∧ (compare_baseline old new).deleted
      = (old.filter (fun p => (dget new p.1).isNone)).map Prod.fst
  ∧ (compare_baseline old new).modified
      = (old.filter (fun p =>
          match dget new p.1 with
          | some n => decide (p.2.hash ≠ n.hash)
          | none => false)).map Prod.fst :=
  ⟨rfl, classify_old_fst new old, classify_old_snd new old⟩

/-! Helper lemmas about the debounce scheduler. -/

theorem flush_one_invocations (fs : String → FileState)
    (baseline : String → Option FileRecord) (s : WatchState)
    (rel abs : String) (h : s.pending rel = some abs) :
    (flush_one fs baseline s rel).invocations = [(rel, abs)] := by
  simp only [flush_one, h]
  by_cases hu : (compare_file fs abs (baseline rel)).unreadable
  · by_cases hr : s.retry_once rel <;> simp [hu, hr]
  · cases hct : (compare_file fs abs (baseline rel)).change_type <;>
      simp [hu, hct]

theorem run_events_spec :
    ∀ (l : List String) (hl : l ≠ []) (s : WatchState) (rel : String),
    (run_events s rel l).pending rel = some (l.getLast hl)
  ∧ (run_events s rel l).timers rel
      = some (s.next_timer_id + (l.length - 1))
  ∧ (run_events s rel l).next_timer_id = s.next_timer_id + l.length
  | [], hl, _, _ => absurd rfl hl
  | [a], _, s, rel => by
    simp [run_events, schedule_evaluation, fupdate]
  | a :: b :: rest, _, s, rel => by
    obtain ⟨ih1, ih2, ih3⟩ :=
      run_events_spec (b :: rest) (by simp) (schedule_evaluation s rel a) rel
    simp only [run_events] at ih1 ih2 ih3
    refine ⟨?_, ?_, ?_⟩
    · simp only [run_events]
      rw [ih1]
      congr 1
    · simp only [run_events]
      rw [ih2]
      simp only [schedule_evaluation, List.length_cons]
      congr 1
      omega
    · simp only [run_events]
      rw [ih3]
      simp only [schedule_evaluation, List.length_cons]
      omega

/-- Claim C4: a burst of events for one path within one quiet period leaves
the latest observed absolute path recorded and exactly one live timer for the
key (every earlier timer was cancelled by a later event and firing it does
nothing); firing the live timer invokes the Decision Engine exactly once for
the path, with the most recently recorded absolute path. -/
theorem debounce_burst_single_invocation (s : WatchState) (rel : String)
    (l : List String) (hl : l ≠ []) (fs : String → FileState)
    (baseline : String → Option FileRecord) :
    (run_events s rel l).pending rel = some (l.getLast hl)
  ∧ (run_events s rel l).timers rel
      = some (s.next_timer_id + (l.length - 1))
  ∧ (∀ tid, tid ≠ s.next_timer_id + (l.length - 1) →
      fire_timer fs baseline (run_events s rel l) rel tid
        = ⟨run_events s rel l, [], []⟩)
  ∧ (fire_timer fs baseline (run_events s rel l) rel
        (s.next_timer_id + (l.length - 1))).invocations
      = [(rel, l.getLast hl)] := by
  obtain ⟨h1, h2, _⟩ := run_events_spec l hl s rel
  refine ⟨h1, h2, ?_, ?_⟩
  · intro tid htid
    rw [fire_timer, if_neg]
    rw [h2]
    intro hc
    exact htid (Option.some.inj hc).symm
  · rw [fire_timer, if_pos h2]
    exact flush_one_invocations fs baseline _ rel _ h1

/-- Witness for C4: two rapid events for a.txt leave one live timer whose
firing evaluates the latest absolute path exactly once. -/
theorem debounce_burst_single_invocation_witness :
    (fire_timer (fun _ => FileState.missing) (fun _ => none)
        (run_events
          ⟨fun _ => none, fun _ => none, fun _ => false, 0⟩
          ("a.txt") ["/t/a1", "/t/a2"])
        ("a.txt") 1).invocations
      = [("a.txt", "/t/a2")] := by
  have h := (debounce_burst_single_invocation
    ⟨fun _ => none, fun _ => none, fun _ => false, 0⟩
    ("a.txt") ["/t/a1", "/t/a2"] (by simp)
    (fun _ => FileState.missing) (fun _ => none)).2.2.2
  simpa using h

/-- Claim C3: in the per-path retry state machine, an unreadable evaluation
with the retry flag clear reschedules exactly one additional debounce cycle
(fresh timer, same pending path) and marks the retry consumed, emitting no
verdict; a second consecutive unreadable evaluation emits no verdict and
leaves no timer, so no further automatic evaluation can fire until a new raw
event arrives; and any evaluation that completes without unreadable clears
the retry flag. -/
theorem flush_retry_policy (fs : String → FileState)
    (baseline : String → Option FileRecord) (s : WatchState)
    (rel abs : String) (tid : Nat)
    (htimer : s.timers rel = some tid) (hpend : s.pending rel = some abs) :
    ((compare_file fs abs (baseline rel)).unreadable = true →
      s.retry_once rel = false →
      (fire_timer fs baseline s rel tid).emitted = []
      ∧ (fire_timer fs baseline s rel tid).state.retry_once rel = true
      ∧ (fire_timer fs baseline s rel tid).state.timers rel
          = some s.next_timer_id
      ∧ (fire_timer fs baseline s rel tid).state.pending rel = some abs
      ∧ (fire_timer fs baseline s rel tid).state.next_timer_id
          = s.next_timer_id + 1)
  ∧ ((compare_file fs abs (baseline rel)).unreadable = true →
      s.retry_once rel = true →
      (fire_timer fs baseline s rel tid).emitted = []
      ∧ (fire_timer fs baseline s rel tid).state.timers rel = none
      ∧ (∀ tid2, fire_timer fs baseline
            (fire_timer fs baseline s rel tid).state rel tid2
          = ⟨(fire_timer fs baseline s rel tid).state, [], []⟩))
  ∧ ((compare_file fs abs (baseline rel)).unreadable = false →
      (fire_timer fs baseline s rel tid).state.retry_once rel = false) := by
  refine ⟨?_, ?_, ?_⟩
  · intro hu hr
    simp [fire_timer, htimer, flush_one, hpend, hu, hr,
      schedule_evaluation, fupdate]
  · intro hu hr
    refine ⟨?_, ?_, ?_⟩
    · simp [fire_timer, htimer, flush_one, hpend, hu, hr]
    · simp [fire_timer, htimer, flush_one, hpend, hu, hr, fupdate]
    · intro tid2
      have hst : (fire_timer fs baseline s rel tid).state.timers rel = none := by
        simp [fire_timer, htimer, flush_one, hpend, hu, hr, fupdate]
      rw [fire_timer, if_neg]
      rw [hst]
      simp
  · intro hu
    cases hct : (compare_file fs abs (baseline rel)).change_type <;>
      simp [fire_timer, htimer, flush_one, hpend, hu, hct, fupdate]

/-- Witness for C3 on a concrete unreadable path: the first fire consumes the
retry and reschedules, the second fire leaves no timer and emits nothing. -/
theorem flush_retry_policy_witness :
    (fire_timer (fun _ => FileState.permError) (fun _ => none)
        ⟨fupdate (fun _ => none) ("a.txt") (some ("/t/a.txt")),
          fupdate (fun _ => none) ("a.txt") (some 0),
          fun _ => false, 1⟩
        ("a.txt") 0).state.retry_once ("a.txt") = true
  ∧ (fire_timer (fun _ => FileState.permError) (fun _ => none)
        ⟨fupdate (fun _ => none) ("a.txt") (some ("/t/a.txt")),
          fupdate (fun _ => none) ("a.txt") (some 0),
          fun _ => false, 1⟩
        ("a.txt") 0).state.timers ("a.txt") = some 1
  ∧ (fire_timer (fun _ => FileState.permError) (fun _ => none)
        ⟨fupdate (fun _ => none) ("a.txt") (some ("/t/a.txt")),
          fupdate (fun _ => none) ("a.txt") (some 0),
          fupdate (fun _ => false) ("a.txt") true, 1⟩
        ("a.txt") 0).state.timers ("a.txt") = none := by
  have h1 := (flush_retry_policy (fun _ => FileState.permError) (fun _ => none)
    ⟨fupdate (fun _ => none) ("a.txt") (some ("/t/a.txt")),
      fupdate (fun _ => none) ("a.txt") (some 0),
      fun _ => false, 1⟩
    ("a.txt") ("/t/a.txt") 0 rfl rfl).1 rfl rfl
  have h2 := (flush_retry_policy (fun _ => FileState.permError) (fun _ => none)
    ⟨fupdate (fun _ => none) ("a.txt") (some ("/t/a.txt")),
      fupdate (fun _ => none) ("a.txt") (some 0),
      fupdate (fun _ => false) ("a.txt") true, 1⟩
    ("a.txt") ("/t/a.txt") 0 rfl rfl).2.1 rfl (by simp [fupdate])
  exact ⟨h1.2.1, h1.2.2.1, h2.2.1⟩

/-! Helper lemma about the scanner. -/

theorem scan_mem (fnm : String → String → Bool) (exclude : List String) :
    ∀ (walk : List (String × FileState)) (res : List (String × FileRecord)),
    scan_directory fnm exclude walk = some res →
    ∀ p r, (p, r) ∈ res → (p, FileState.ok r.hash r.size r.mtime) ∈ walk
  | [], res, h => by
    simp only [scan_directory, Option.some.injEq] at h
    subst h
    intro p r hr
    simp at hr
  | (rel, st) :: rest, res, h => by
    intro p r hr
    by_cases hex : matches_exclude_patterns fnm rel exclude
    · simp only [scan_directory, if_pos hex] at h
      exact List.mem_cons_of_mem _ (scan_mem fnm exclude rest res h p r hr)
    · simp only [scan_directory, if_neg hex] at h
      cases st with
      | missing =>
        exact List.mem_cons_of_mem _ (scan_mem fnm exclude rest res h p r hr)
      | permError =>
        exact List.mem_cons_of_mem _ (scan_mem fnm exclude rest res h p r hr)
      | osError => simp at h
      | hashError sz mt =>
        exact List.mem_cons_of_mem _ (scan_mem fnm exclude rest res h p r hr)
      | ok hsh sz mt =>
        cases hs : scan_directory fnm exclude rest with
        | none => rw [hs] at h; simp at h
        | some res' =>
          rw [hs] at h
          simp only [Option.map, Option.some.injEq] at h
          subst h
          rcases List.mem_cons.mp hr with heq | hmem
          · rw [Prod.mk.injEq] at heq
            obtain ⟨hp, hrec⟩ := heq
            subst hp
            subst hrec
            exact List.mem_cons_self _ _
          · exact List.mem_cons_of_mem _
              (scan_mem fnm exclude rest res' hs p r hmem)

/-- Claim C9: the mapping produced by scan_directory contains no entry for a
file that could not be statted or hashed — every record's hash is a
successful hash_file result, a walk entry that is missing, permission-denied
or unhashable contributes no key — and consequently a baseline path whose
file exists but is unreadable at batch-scan time is absent from the new
mapping and classified deleted by compare_baseline, unlike the watch-mode
decision engine, which reports unreadable with no verdict. -/
theorem scan_directory_omits_unreadable (fnm : String → String → Bool)
    (exclude : List String) (walk : List (String × FileState))
    (res : List (String × FileRecord))
    (hscan : scan_directory fnm exclude walk = some res) :
    (∀ p r, (p, r) ∈ res →
      ∃ st, (p, st) ∈ walk ∧ hash_file st = some r.hash)
  ∧ (∀ p st, (dkeys walk).Nodup → (p, st) ∈ walk →
      (st = .missing ∨ st = .permError ∨ ∃ sz mt, st = .hashError sz mt) →
      dget res p = none)
  ∧ (∀ p st (old : List (String × FileRecord)),
      (dkeys walk).Nodup → (p, st) ∈ walk →
      (st = .permError ∨ ∃ sz mt, st = .hashError sz mt) →
      dmem old p = true → p ∈ (compare_baseline old res).deleted)
  ∧ (∀ (fs : String → FileState) (abs : String) (e : Option FileRecord),
      (fs abs = .permError ∨ ∃ sz mt, fs abs = .hashError sz mt) →
      compare_file fs abs e = ⟨none, none, true⟩) := by
  have habsent : ∀ p st, (dkeys walk).Nodup → (p, st) ∈ walk →
      (st = .missing ∨ st = .permError ∨ ∃ sz mt, st = .hashError sz mt) →
      dget res p = none := by
    intro p st nd hw hun
    cases hg : dget res p with
    | none => rfl
    | some r =>
      exfalso
      have hok := scan_mem fnm exclude walk res hscan p r (dget_mem hg)
      have heq := dkeys_nodup_unique nd hw hok
      rcases hun with rfl | rfl | ⟨sz, mt, rfl⟩ <;> simp at heq
  refine ⟨?_, habsent, ?_, ?_⟩
  · intro p r hr
    exact ⟨FileState.ok r.hash r.size r.mtime,
      scan_mem fnm exclude walk res hscan p r hr, rfl⟩
  · intro p st old nd hw hun hold
    obtain ⟨a, ha⟩ := dmem_iff_exists.mp hold
    refine mem_deleted_iff.mpr ⟨a, ha, ?_⟩
    exact habsent p st nd hw (Or.inr hun)
  · intro fs abs e hun
    rcases hun with h | ⟨sz, mt, h⟩ <;>
      simp [compare_file, build_file_meta, h]

/-- Witness for C9: scanning a walk where a.txt hashes and b.txt raises
PermissionError yields a mapping without b.txt, so a baseline holding b.txt
classifies it deleted. -/
theorem scan_directory_omits_unreadable_witness :
    ("b.txt" : String) ∈ (compare_baseline [("b.txt", ⟨"hb", 5, 50⟩)]
        [("a.txt", ⟨"ha", 1, 10⟩)]).deleted :=
  (scan_directory_omits_unreadable (fun _ _ => false) []
    [("a.txt", FileState.ok ("ha") 1 10), ("b.txt", FileState.permError)]
    [("a.txt", ⟨"ha", 1, 10⟩)] rfl).2.2.1 ("b.txt") FileState.permError
    [("b.txt", ⟨"hb", 5, 50⟩)] (by decide) (by decide) (Or.inl rfl) (by decide)

/-- Claim C8, evaluated at its failing input: when the backup copy fails the
replacement is indeed aborted with the prior baseline intact, but when
save_json is interrupted mid-write the active baseline file is left holding a
strict partial serialization — neither the old baseline nor the complete new
one — because save_json truncates and rewrites the file in place. -/
theorem update_replace_halfwritten_baseline :
    update_replace ["chunkA", "chunkB"] ["newA", "newB"] false none
      = .abortedBackupFailure ⟨["chunkA", "chunkB"], none⟩
  ∧ update_replace ["chunkA", "chunkB"] ["newA", "newB"] true none
      = .completed ⟨["newA", "newB"], some ["chunkA", "chunkB"]⟩
  ∧ update_replace ["chunkA", "chunkB"] ["newA", "newB"] true (some 1)
      = .crashedDuringSave ⟨["newA"], some ["chunkA", "chunkB"]⟩
  ∧ (["newA"] : List String) ≠ ["chunkA", "chunkB"]
  ∧ (["newA"] : List String) ≠ ["newA", "newB"] := by
  exact ⟨rfl, rfl, rfl, by decide, by decide⟩

/-- Counterexample to claim C10: with no log path supplied, the default log
path is not always outside the watched tree — watching the per-user state
directory itself makes the chosen default land inside the watched target, and
the watcher starts anyway. -/
theorem watch_log_default_inside_watched_tree :
    watch_command_log ["home", "user", ".local", "state"] none
        ["home", "user", ".local", "state"]
      = some ["home", "user", ".local", "state", "fim", "logs",
          "changes-state.jsonl"]
  ∧ is_path_within
      ["home", "user", ".local", "state", "fim", "logs",
        "changes-state.jsonl"]
      ["home", "user", ".local", "state"] = true := by
  exact ⟨rfl, rfl⟩

/-- Claim C10 as amended: a user-supplied log path resolving inside (or equal
to) the watched target is refused, with the watcher not started, and one
outside is used as given; when no log path is supplied, the default is placed
under the per-user state directory (state_root/fim/logs) with no containment
check against the watched tree, so it is outside the watched tree only when
the watched target is not an ancestor of that state directory. -/
theorem watch_command_log_cases (target state_root lp : List String) :
    (is_path_within lp target = true →
      watch_command_log target (some lp) state_root = none)
  ∧ (is_path_within lp target = false →
      watch_command_log target (some lp) state_root = some lp)
  ∧ watch_command_log target none state_root
      = some (state_root ++ ["fim", "logs",
          "changes-" ++ target_name target ++ ".jsonl"]) := by
  refine ⟨?_, ?_, rfl⟩
  · intro h
    simp [watch_command_log, h]
  · intro h
    simp [watch_command_log, h]

/-- Witness for the amended C10: an explicit log path inside the watched tree
is refused and one outside is accepted. -/
theorem watch_command_log_cases_witness :
    watch_command_log ["srv", "data"] (some ["srv", "data", "fim.log"])
        ["var", "state"]
      = none
  ∧ watch_command_log ["srv", "data"] (some ["var", "log", "fim.log"])
        ["var", "state"]
      = some ["var", "log", "fim.log"] :=
  ⟨(watch_command_log_cases ["srv", "data"] ["var", "state"]
      ["srv", "data", "fim.log"]).1 (by decide),
   (watch_command_log_cases ["srv", "data"] ["var", "state"]
      ["var", "log", "fim.log"]).2.1 (by decide)⟩
